import Mathlib

/-!
# Verification of the Lib_management lending core

Shallow embedding of the two variants of the library-management program:

* `src/Web.py` — single-copy books (`is_borrowed` flag, borrower id, due date),
  an append-only history ledger, fines, case-insensitive lookups.  Python dicts
  (`self.books`, `self.members`) are embedded as insertion-ordered association
  lists; dict value mutation becomes `setKey` at the entry's stored key.
* `src/app.py` — multi-copy books (`total_copies` / `available_copies`),
  members in a dict, books in a plain list, exceptions for business failures
  (embedded as `Except`).

Persistence (`save_data` / `save_to_file`) only serialises the in-memory state
and is modelled as the identity on the logical state; the load paths are
modelled separately over an abstract store.  Timestamps are integers counting
minutes (the program's `DATE_FMT = "%Y-%m-%d %H:%M"` has minute resolution);
one day is `1440` minutes.
-/

set_option maxHeartbeats 1000000

/-! ## Association-list helpers (Python `dict` with insertion order) -/

/-- Lookup returning the stored entry (key and value), first match. -/
def getEntry {α β : Type} [DecidableEq α] (k : α) : List (α × β) → Option (α × β)
  | [] => none
  | e :: rest => if e.1 = k then some e else getEntry k rest

/-- Python `dict.get`: the value stored under `k`, if any. -/
def getKey {α β : Type} [DecidableEq α] (k : α) (l : List (α × β)) : Option β :=
  (getEntry k l).map Prod.snd

/-- Replace the value stored under `k` (in place, keeping insertion order);
identity when `k` is absent.  This is Python mutation of a dict value. -/
def setKey {α β : Type} [DecidableEq α] (k : α) (v : β) : List (α × β) → List (α × β)
  | [] => []
  | e :: rest => if e.1 = k then (e.1, v) :: rest else e :: setKey k v rest

/-- First entry whose value satisfies `p` (iteration over `dict.values()`). -/
def findEntryP {α β : Type} (p : β → Prop) [DecidablePred p] :
    List (α × β) → Option (α × β)
  | [] => none
  | e :: rest => if p e.2 then some e else findEntryP p rest

/-- Python `d[k] = v`: replace if the key exists, append otherwise. -/
def dictInsert {α β : Type} [DecidableEq α] (k : α) (v : β) (l : List (α × β)) :
    List (α × β) :=
  if (getEntry k l).isSome then setKey k v l else l ++ [(k, v)]

theorem getEntry_key {α β : Type} [DecidableEq α] {k : α} {l : List (α × β)}
    {e : α × β} (h : getEntry k l = some e) : e.1 = k := by
  induction l with
  | nil => simp [getEntry] at h
  | cons hd tl ih =>
    by_cases hk : hd.1 = k
    · simp [getEntry, hk] at h
      simp [← h, hk]
    · simp [getEntry, hk] at h
      exact ih h

theorem getEntry_mem {α β : Type} [DecidableEq α] {k : α} {l : List (α × β)}
    {e : α × β} (h : getEntry k l = some e) : e ∈ l := by
  induction l with
  | nil => simp [getEntry] at h
  | cons hd tl ih =>
    by_cases hk : hd.1 = k
    · simp [getEntry, hk] at h
      simp [← h]
    · simp [getEntry, hk] at h
      exact List.mem_cons_of_mem _ (ih h)

theorem getEntry_eq_none_iff {α β : Type} [DecidableEq α] {k : α}
    {l : List (α × β)} : getEntry k l = none ↔ k ∉ l.map Prod.fst := by
  induction l with
  | nil => simp [getEntry]
  | cons hd tl ih =>
    by_cases hk : hd.1 = k
    · simp [getEntry, hk]
    · simp [getEntry, hk, ih, Ne.symm hk]

theorem getEntry_of_mem_nodup {α β : Type} [DecidableEq α] {k : α}
    {v : β} {l : List (α × β)} (hnd : (l.map Prod.fst).Nodup)
    (hm : (k, v) ∈ l) : getEntry k l = some (k, v) := by
  induction l with
  | nil => simp at hm
  | cons hd tl ih =>
    simp only [List.map_cons, List.nodup_cons] at hnd
    rcases List.mem_cons.mp hm with h | h
    · simp [getEntry, ← h]
    · have hne : hd.1 ≠ k := by
        intro he
        exact hnd.1 (he ▸ List.mem_map_of_mem Prod.fst h)
      simp [getEntry, hne]
      exact ih hnd.2 h

theorem getEntry_append_left {α β : Type} [DecidableEq α] {k : α}
    {l₁ l₂ : List (α × β)} {e : α × β} (h : getEntry k l₁ = some e) :
    getEntry k (l₁ ++ l₂) = some e := by
  induction l₁ with
  | nil => simp [getEntry] at h
  | cons hd tl ih =>
    by_cases hk : hd.1 = k
    · simp [getEntry, hk] at h ⊢
      exact h
    · simp [getEntry, hk] at h ⊢
      exact ih h

theorem getEntry_append_right {α β : Type} [DecidableEq α] {k : α}
    {l₁ l₂ : List (α × β)} (h : getEntry k l₁ = none) :
    getEntry k (l₁ ++ l₂) = getEntry k l₂ := by
  induction l₁ with
  | nil => simp
  | cons hd tl ih =>
    by_cases hk : hd.1 = k
    · simp [getEntry, hk] at h
    · simp [getEntry, hk] at h ⊢
      exact ih h

theorem setKey_map_fst {α β : Type} [DecidableEq α] (k : α) (v : β)
    (l : List (α × β)) : (setKey k v l).map Prod.fst = l.map Prod.fst := by
  induction l with
  | nil => rfl
  | cons hd tl ih =>
    by_cases hk : hd.1 = k
    · simp [setKey, hk]
    · simp [setKey, hk, ih]

theorem mem_setKey_nodup {α β : Type} [DecidableEq α] {k : α} {v : β}
    {l : List (α × β)} (hnd : (l.map Prod.fst).Nodup) {e : α × β}
    (h : e ∈ setKey k v l) : (e ∈ l ∧ e.1 ≠ k) ∨ e = (k, v) := by
  induction l with
  | nil => simp [setKey] at h
  | cons hd tl ih =>
    simp only [List.map_cons, List.nodup_cons] at hnd
    by_cases hk : hd.1 = k
    · simp only [setKey, hk, if_pos] at h
      rcases List.mem_cons.mp h with h | h
      · right
        simp [h, hk]
      · left
        refine ⟨List.mem_cons_of_mem _ h, ?_⟩
        intro he
        exact hnd.1 (hk ▸ he ▸ List.mem_map_of_mem Prod.fst h)
    · simp only [setKey, hk, if_neg, not_false_iff] at h
      rcases List.mem_cons.mp h with h | h
      · left
        exact ⟨h ▸ List.mem_cons_self hd tl, h ▸ hk⟩
      · rcases ih hnd.2 h with ⟨h1, h2⟩ | h1
        · exact Or.inl ⟨List.mem_cons_of_mem _ h1, h2⟩
        · exact Or.inr h1

theorem getEntry_setKey_ne {α β : Type} [DecidableEq α] {k k' : α} (v : β)
    (l : List (α × β)) (h : k ≠ k') :
    getEntry k (setKey k' v l) = getEntry k l := by
  induction l with
  | nil => rfl
  | cons hd tl ih =>
    by_cases hk : hd.1 = k'
    · have : hd.1 ≠ k := by rw [hk]; exact Ne.symm h
      simp [setKey, getEntry, hk, this, Ne.symm h]
    · by_cases hk2 : hd.1 = k
      · simp [setKey, getEntry, hk, hk2, h]
      · simp [setKey, getEntry, hk, hk2, ih]

theorem getEntry_setKey_self {α β : Type} [DecidableEq α] {k : α} (v : β)
    {l : List (α × β)} {e : α × β} (h : getEntry k l = some e) :
    getEntry k (setKey k v l) = some (k, v) := by
  induction l with
  | nil => simp [getEntry] at h
  | cons hd tl ih =>
    by_cases hk : hd.1 = k
    · simp [setKey, getEntry, hk]
    · simp only [setKey, hk, if_neg, not_false_iff]
      simp only [getEntry, hk, if_neg, not_false_iff] at h ⊢
      exact ih h

theorem setKey_setKey {α β : Type} [DecidableEq α] (k : α) (v w : β)
    (l : List (α × β)) : setKey k v (setKey k w l) = setKey k v l := by
  induction l with
  | nil => rfl
  | cons hd tl ih =>
    by_cases hk : hd.1 = k
    · simp [setKey, hk]
    · simp [setKey, hk, ih]

theorem setKey_self_of_getEntry {α β : Type} [DecidableEq α] {k : α} {v : β}
    {l : List (α × β)} (h : getEntry k l = some (k, v)) : setKey k v l = l := by
  induction l with
  | nil => rfl
  | cons hd tl ih =>
    by_cases hk : hd.1 = k
    · simp only [getEntry, hk, if_pos, Option.some.injEq] at h
      simp [setKey, hk, ← h]
    · simp only [getEntry, hk, if_neg, not_false_iff] at h
      simp [setKey, hk, ih h]

theorem findEntryP_mem {α β : Type} {p : β → Prop} [DecidablePred p]
    {l : List (α × β)} {e : α × β} (h : findEntryP p l = some e) :
    e ∈ l ∧ p e.2 := by
  induction l with
  | nil => simp [findEntryP] at h
  | cons hd tl ih =>
    by_cases hp : p hd.2
    · simp only [findEntryP, hp, if_pos, Option.some.injEq] at h
      exact ⟨h ▸ List.mem_cons_self hd tl, h ▸ hp⟩
    · simp only [findEntryP, hp, if_neg, not_false_iff] at h
      exact ⟨List.mem_cons_of_mem _ (ih h).1, (ih h).2⟩

theorem findEntryP_append_right {α β : Type} {p : β → Prop} [DecidablePred p]
    {l₁ : List (α × β)} (l₂ : List (α × β)) (h : ∀ e ∈ l₁, ¬ p e.2) :
    findEntryP p (l₁ ++ l₂) = findEntryP p l₂ := by
  induction l₁ with
  | nil => simp
  | cons hd tl ih =>
    have hp : ¬ p hd.2 := h hd (List.mem_cons_self hd tl)
    simp only [List.cons_append, findEntryP, hp, if_neg, not_false_iff]
    exact ih fun e he => h e (List.mem_cons_of_mem _ he)

/-! ## Python string primitives

`str.lower()` and `str.strip()` are modelled directly on the character
list, by structural recursion, so that every operation of the model can be
evaluated on concrete inputs. -/

/-- Python `s.lower()`: lower-case every character. -/
def pyLower (s : String) : String := ⟨s.data.map Char.toLower⟩

/-- Python `s.strip()`: drop leading and trailing whitespace. -/
def pyStrip (s : String) : String :=
  ⟨((s.data.dropWhile Char.isWhitespace).reverse.dropWhile Char.isWhitespace).reverse⟩

/-! ## The `Web.py` variant: single-copy books, history ledger, fines -/

/-- Minutes per day; `DATE_FMT` has minute resolution, so a whole day is
1440 ticks and Python `timedelta.days` is floor division by 1440. -/
def minutesPerDay : Int := 1440

/-- A stored due-date string: either it parses back under `DATE_FMT`
(`valid t`, `t` in minutes) or `datetime.strptime` raises (`malformed`). -/
inductive DateVal where
  | malformed
  | valid (t : Int)
  deriving DecidableEq, Repr

/-- Model of `Web.py` `Book`: one physical copy, borrowed-flag plus borrower/due. -/
structure BookW where
  book_id : String
  title : String
  author : String
  is_borrowed : Bool
  borrower_id : Option String
  due_date : Option DateVal
  deriving DecidableEq, Repr

/-- Model of `Web.py` `Member`. -/
structure MemberW where
  member_id : String
  name : String
  borrowed_book_ids : List String
  deriving DecidableEq, Repr

/-- A history-ledger record: `{"action": "borrow", ...}` carries the due
date, `{"action": "return", ...}` carries the fine. -/
inductive HistEntry where
  | borrowE (timestamp : Int) (book_id member_id : String) (due : DateVal)
  | retE (timestamp : Int) (book_id member_id : String) (fine : Int)
  deriving DecidableEq, Repr

def HistEntry.timestamp : HistEntry → Int
  | .borrowE t _ _ _ => t
  | .retE t _ _ _ => t

/-- Model of `Web.py` `Library` in-memory state: two insertion-ordered dicts and the
history list. -/
structure LibraryW where
  books : List (String × BookW)
  members : List (String × MemberW)
  history : List HistEntry
  deriving DecidableEq, Repr

/-- Fresh state (`load_data` on a missing file). -/
def initW : LibraryW := ⟨[], [], []⟩

/-- Business failures of `Web.py` (returned as `(False, message)` pairs);
`alreadyBorrowed` is the spec's `NoCopiesAvailable`, `notHeld` the spec's
`NotHeldByMember`. -/
inductive WebErr where
  | memberNotFound
  | bookNotFound
  | alreadyBorrowed
  | notHeld
  deriving DecidableEq, Repr

/-- Model of `Book(str(book_id), title.strip(), author.strip())`: the record
`add_book` stores (fields default to not borrowed, no borrower, no due). -/
def newBookW (book_id title author : String) : BookW :=
  { book_id := book_id, title := pyStrip title, author := pyStrip author,
    is_borrowed := false, borrower_id := none, due_date := none }

/-- Model of `Member(str(member_id), name.strip())`. -/
def newMemberW (member_id name : String) : MemberW :=
  { member_id := member_id, name := pyStrip name, borrowed_book_ids := [] }

/-- Model of `Library.add_book`: reject an existing id, else insert a fresh
single-copy book with stripped title/author. -/
def add_bookW (lib : LibraryW) (book_id title author : String) :
    Bool × LibraryW :=
  if (getEntry book_id lib.books).isSome then
    (false, lib)
  else
    (true, { lib with books := lib.books ++ [(book_id, newBookW book_id title author)] })

/-- Model of `Library.add_member`: reject an existing id, else insert. -/
def add_memberW (lib : LibraryW) (member_id name : String) :
    Bool × LibraryW :=
  if (getEntry member_id lib.members).isSome then
    (false, lib)
  else
    (true, { lib with members := lib.members ++ [(member_id, newMemberW member_id name)] })

/-- Model of `_find_member_by_name_ci` / `members.get`: the entry (dict key and
member) the operation resolves, `by_name` selecting the case-insensitive scan. -/
def resolveMemberW (lib : LibraryW) (member_key : String) (by_name : Bool) :
    Option (String × MemberW) :=
  if by_name then
    findEntryP (fun m => pyLower m.name = pyLower (pyStrip member_key)) lib.members
  else getEntry member_key lib.members

/-- Model of `_find_book_by_title_ci` / `books.get`. -/
def resolveBookW (lib : LibraryW) (book_key : String) (by_title : Bool) :
    Option (String × BookW) :=
  if by_title then
    findEntryP (fun b => pyLower b.title = pyLower (pyStrip book_key)) lib.books
  else getEntry book_key lib.books

/-- The in-place update `b.is_borrowed = True; b.borrower_id = m.member_id;
b.due_date = (now + 7 days)` performed by `borrow_book`. -/
def markBorrowed (b : BookW) (mid : String) (due : Int) : BookW :=
  { b with is_borrowed := true, borrower_id := some mid,
           due_date := some (.valid due) }

/-- The in-place update clearing the loan fields performed by `return_book`. -/
def clearLoan (b : BookW) : BookW :=
  { b with is_borrowed := false, borrower_id := none, due_date := none }

/-- Model of `m.borrowed_book_ids.append(bid)`. -/
def addBorrowed (m : MemberW) (bid : String) : MemberW :=
  { m with borrowed_book_ids := m.borrowed_book_ids ++ [bid] }

/-- The guarded `m.borrowed_book_ids.remove(bid)` (first occurrence, no-op
when absent). -/
def removeBorrowed (m : MemberW) (bid : String) : MemberW :=
  { m with borrowed_book_ids := m.borrowed_book_ids.erase bid }

/-- Model of `Library.borrow_book`: resolve member and book, fail when the copy is
out, else mark it borrowed with due date now + 7 days, append the book id
to the member's list and a `borrow` entry to the history. -/
def borrow_bookW (lib : LibraryW) (now : Int) (member_key book_key : String)
    (by_title by_name : Bool) : Except WebErr LibraryW :=
  match resolveMemberW lib member_key by_name with
  | none => .error .memberNotFound
  | some (mk, m) =>
    match resolveBookW lib book_key by_title with
    | none => .error .bookNotFound
    | some (bk, b) =>
      if b.is_borrowed then .error .alreadyBorrowed
      else
        let due : Int := now + 7 * minutesPerDay
        .ok { books := setKey bk (markBorrowed b m.member_id due) lib.books,
              members := setKey mk (addBorrowed m b.book_id) lib.members,
              history := lib.history ++
                [.borrowE now b.book_id m.member_id (.valid due)] }

/-- The fine block of `Library.return_book`: zero without a due date, zero
when parsing raises, else `late_days * 10` for positive
`late_days = (now - due).days` (floor division by one day). -/
def computeFineW (due_date : Option DateVal) (now : Int) : Int :=
  match due_date with
  | none => 0
  | some .malformed => 0
  | some (.valid due) =>
    let late_days := Int.fdiv (now - due) minutesPerDay
    if late_days > 0 then late_days * 10 else 0

/-- Model of `Library.return_book`: resolve, fail unless this member holds the copy,
else compute the fine, clear the loan fields, drop the id from the member's
list and append a `return` entry. -/
def return_bookW (lib : LibraryW) (now : Int) (member_key book_key : String)
    (by_title by_name : Bool) : Except WebErr (LibraryW × Int) :=
  match resolveMemberW lib member_key by_name with
  | none => .error .memberNotFound
  | some (mk, m) =>
    match resolveBookW lib book_key by_title with
    | none => .error .bookNotFound
    | some (bk, b) =>
      if b.is_borrowed = false ∨ b.borrower_id ≠ some m.member_id then
        .error .notHeld
      else
        let fine := computeFineW b.due_date now
        .ok ({ books := setKey bk (clearLoan b) lib.books,
               members := setKey mk (removeBorrowed m b.book_id) lib.members,
               history := lib.history ++
                 [.retE now b.book_id m.member_id fine] }, fine)

/-- The four mutating operations the interfaces expose. -/
inductive OpW where
  | addBook (book_id title author : String)
  | addMember (member_id name : String)
  | borrow (member_key book_key : String) (by_title by_name : Bool)
  | ret (member_key book_key : String) (by_title by_name : Bool)
  deriving DecidableEq, Repr

/-- One operation against the state at time `now`; failures leave the state
as it was. -/
def stepW (lib : LibraryW) (now : Int) : OpW → LibraryW
  | .addBook i t a => (add_bookW lib i t a).2
  | .addMember i n => (add_memberW lib i n).2
  | .borrow mk bk bt bn =>
    match borrow_bookW lib now mk bk bt bn with
    | .ok lib' => lib'
    | .error _ => lib
  | .ret mk bk bt bn =>
    match return_bookW lib now mk bk bt bn with
    | .ok (lib', _) => lib'
    | .error _ => lib

/-- Run a timed operation sequence from the fresh state. -/
def runW (ops : List (Int × OpW)) : LibraryW :=
  ops.foldl (fun l p => stepW l p.1 p.2) initW

/-! ## The `app.py` variant: multi-copy books, no history -/

/-- Model of `app.py` `Book`: copy counting.  The gradio handlers build ids and copy
counts with `int(...)`, so both are unbounded integers. -/
structure BookA where
  book_id : Int
  title : String
  author : String
  total_copies : Int
  available_copies : Int
  deriving DecidableEq, Repr

/-- Model of `app.py` `Member`: `borrowed_books` is a plain Python list (one entry
per borrowed copy, so the same id may repeat). -/
structure MemberA where
  member_id : Int
  name : String
  borrowed_books : List Int
  deriving DecidableEq, Repr

/-- Model of `app.py` `Library` in-memory state: a plain book list and a member
dict. -/
structure LibraryA where
  books : List BookA
  members : List (Int × MemberA)
  deriving DecidableEq, Repr

def initA : LibraryA := ⟨[], []⟩

/-- The exceptions `app.py` raises for business failures;
`alreadyBorrowed` is `AlreadyBorrowedError`, raised when no copy is
available (the spec's `NoCopiesAvailable`). -/
inductive AppErr where
  | memberNotFound
  | bookNotFound
  | alreadyBorrowed
  deriving DecidableEq, Repr

/-- Model of `Book(int(book_id), title, author, int(copies))` as the gradio handler
builds it: `available_copies` defaults to `total_copies`. -/
def newBookA (book_id : Int) (title author : String) (copies : Int) : BookA :=
  { book_id := book_id, title := title, author := author,
    total_copies := copies, available_copies := copies }

/-- Model of `Member(int(member_id), name)`. -/
def newMemberA (member_id : Int) (name : String) : MemberA :=
  { member_id := member_id, name := name, borrowed_books := [] }

/-- Model of `Library.add_book` via the gradio handler: construct
`Book(id, title, author, copies)` (available defaults to total) and append
— no duplicate-id check. -/
def add_bookA (lib : LibraryA) (book_id : Int) (title author : String)
    (copies : Int) : LibraryA :=
  { lib with books := lib.books ++ [newBookA book_id title author copies] }

/-- Model of `Library.add_member`: `self.members[member.member_id] = member` — a
dict assignment, overwriting any existing record. -/
def add_memberA (lib : LibraryA) (member_id : Int) (name : String) :
    LibraryA :=
  { lib with members := dictInsert member_id (newMemberA member_id name) lib.members }

/-- Model of `Library.search_book`: split the list around the first
case-insensitive title match, or `none` (`BookNotFoundError`). -/
def searchSplitA (title : String) : List BookA →
    Option (List BookA × BookA × List BookA)
  | [] => none
  | b :: rest =>
    if pyLower b.title = pyLower title then some ([], b, rest)
    else
      match searchSplitA title rest with
      | none => none
      | some (pre, x, post) => some (b :: pre, x, post)

/-- Model of `book.available_copies -= 1`. -/
def decCopy (b : BookA) : BookA :=
  { b with available_copies := b.available_copies - 1 }

/-- Model of `book.available_copies = min(book.available_copies + 1, book.total_copies)`. -/
def incCopy (b : BookA) : BookA :=
  { b with available_copies := min (b.available_copies + 1) b.total_copies }

/-- Model of `m.borrowed_books.append(bid)`. -/
def addBorrowedA (m : MemberA) (bid : Int) : MemberA :=
  { m with borrowed_books := m.borrowed_books ++ [bid] }

/-- Model of `m.borrowed_books.remove(bid)` (first occurrence). -/
def removeBorrowedA (m : MemberA) (bid : Int) : MemberA :=
  { m with borrowed_books := m.borrowed_books.erase bid }

/-- Model of `Library.borrow_book` (with `Member.borrow_book` inlined): raise
unless a copy is available, else decrement the found book in place and
append its id to the member's borrowed list. -/
def borrow_bookA (lib : LibraryA) (member_id : Int) (title : String) :
    Except AppErr LibraryA :=
  match getEntry member_id lib.members with
  | none => .error .memberNotFound
  | some (mk, m) =>
    match searchSplitA title lib.books with
    | none => .error .bookNotFound
    | some (pre, b, post) =>
      if b.available_copies ≤ 0 then .error .alreadyBorrowed
      else
        .ok { books := pre ++ decCopy b :: post,
              members := setKey mk (addBorrowedA m b.book_id) lib.members }

/-- Model of `Library.return_book` (with `Member.return_book` inlined): when the
member's list holds the id, re-increment the copy (capped at the total)
and drop the first occurrence; otherwise do nothing — still a success. -/
def return_bookA (lib : LibraryA) (member_id : Int) (title : String) :
    Except AppErr LibraryA :=
  match getEntry member_id lib.members with
  | none => .error .memberNotFound
  | some (mk, m) =>
    match searchSplitA title lib.books with
    | none => .error .bookNotFound
    | some (pre, b, post) =>
      if b.book_id ∈ m.borrowed_books then
        .ok { books := pre ++ incCopy b :: post,
              members := setKey mk (removeBorrowedA m b.book_id) lib.members }
      else .ok lib

/-- The public operations of the gradio interface. -/
inductive OpA where
  | addBook (book_id : Int) (title author : String) (copies : Int)
  | addMember (member_id : Int) (name : String)
  | borrow (member_id : Int) (title : String)
  | ret (member_id : Int) (title : String)
  deriving DecidableEq, Repr

/-- One handler call; the `try/except` wrappers turn exceptions into error
messages, leaving the state as it was. -/
def stepA (lib : LibraryA) : OpA → LibraryA
  | .addBook i t a c => add_bookA lib i t a c
  | .addMember i n => add_memberA lib i n
  | .borrow i t =>
    match borrow_bookA lib i t with
    | .ok lib' => lib'
    | .error _ => lib
  | .ret i t =>
    match return_bookA lib i t with
    | .ok lib' => lib'
    | .error _ => lib

/-- Run an operation sequence from the fresh state. -/
def runA (ops : List OpA) : LibraryA := ops.foldl stepA initA

/-! ## Persistence load paths over an abstract store

The on-disk JSON encoding itself is an excluded collaborator; the store is
abstracted to the outcomes the load code distinguishes. -/

/-- What `Web.py` `load_data` can find: no file, content on which
`json.load` or model reconstruction raises, a JSON value that is not a
dict, or a well-formed snapshot. -/
inductive StoreW where
  | missing
  | corrupt
  | notDict
  | wellFormed (books : List (String × BookW)) (members : List (String × MemberW))
      (history : List HistEntry)

/-- Model of `Web.py` `load_data`: every failure path (missing file, non-dict
value, any exception — logged) falls back to the empty collections;
nothing propagates to the caller. -/
def load_dataW : StoreW →
    List (String × BookW) × List (String × MemberW) × List HistEntry
  | .missing => ([], [], [])
  | .corrupt => ([], [], [])
  | .notDict => ([], [], [])
  | .wellFormed b m h => (b, m, h)

/-- One of `app.py`'s data files: absent, content on which `json.load`
raises (`json.JSONDecodeError`), or well-formed. -/
inductive StoreFileA (α : Type) where
  | missing
  | corrupt
  | wellFormed (data : α)

/-- Model of `app.py` `load_from_file`, books file: only `FileNotFoundError` is
caught (giving `[]`); a decode error propagates (`.error`). -/
def load_booksA : StoreFileA (List BookA) → Except Unit (List BookA)
  | .missing => .ok []
  | .corrupt => .error ()
  | .wellFormed l => .ok l

/-- Model of `app.py` `load_from_file`, members file: same policy. -/
def load_membersA : StoreFileA (List (Int × MemberA)) →
    Except Unit (List (Int × MemberA))
  | .missing => .ok []
  | .corrupt => .error ()
  | .wellFormed l => .ok l

/-- Model of `app.py` `load_from_file` over both files; `.error` models an
exception escaping to the caller (`Library.__init__`). -/
def load_from_fileA (bf : StoreFileA (List BookA))
    (mf : StoreFileA (List (Int × MemberA))) :
    Except Unit (List BookA × List (Int × MemberA)) := do
  let books ← load_booksA bf
  let members ← load_membersA mf
  return (books, members)

/-! ## Resolution and success-shape lemmas for `Web.py` -/

theorem resolveMemberW_mem {lib : LibraryW} {k : String} {bn : Bool}
    {e : String × MemberW} (h : resolveMemberW lib k bn = some e) :
    e ∈ lib.members := by
  cases bn with
  | true =>
    simp only [resolveMemberW, if_true] at h
    exact (findEntryP_mem h).1
  | false =>
    simp only [resolveMemberW, Bool.false_eq_true, if_false] at h
    exact getEntry_mem h

theorem resolveBookW_mem {lib : LibraryW} {k : String} {bt : Bool}
    {e : String × BookW} (h : resolveBookW lib k bt = some e) :
    e ∈ lib.books := by
  cases bt with
  | true =>
    simp only [resolveBookW, if_true] at h
    exact (findEntryP_mem h).1
  | false =>
    simp only [resolveBookW, Bool.false_eq_true, if_false] at h
    exact getEntry_mem h

theorem borrow_bookW_ok_inv {lib : LibraryW} {now : Int} {mkey bkey : String}
    {bt bn : Bool} {lib' : LibraryW}
    (h : borrow_bookW lib now mkey bkey bt bn = Except.ok lib') :
    ∃ km m kb b, resolveMemberW lib mkey bn = some (km, m) ∧
      resolveBookW lib bkey bt = some (kb, b) ∧ b.is_borrowed = false ∧
      lib'.books = setKey kb (markBorrowed b m.member_id (now + 7 * minutesPerDay)) lib.books ∧
      lib'.members = setKey km (addBorrowed m b.book_id) lib.members ∧
      lib'.history = lib.history ++
        [HistEntry.borrowE now b.book_id m.member_id
          (DateVal.valid (now + 7 * minutesPerDay))] := by
  cases hm : resolveMemberW lib mkey bn with
  | none => simp [borrow_bookW, hm] at h
  | some em =>
    obtain ⟨km, m⟩ := em
    cases hb : resolveBookW lib bkey bt with
    | none => simp [borrow_bookW, hm, hb] at h
    | some eb =>
      obtain ⟨kb, b⟩ := eb
      cases hbb : b.is_borrowed with
      | true => simp [borrow_bookW, hm, hb, hbb] at h
      | false =>
        simp only [borrow_bookW, hm, hb, hbb, Bool.false_eq_true, if_false,
          Except.ok.injEq] at h
        exact ⟨km, m, kb, b, rfl, rfl, hbb, by rw [← h], by rw [← h], by rw [← h]⟩

theorem return_bookW_ok_inv {lib : LibraryW} {now : Int} {mkey bkey : String}
    {bt bn : Bool} {lib' : LibraryW} {fine : Int}
    (h : return_bookW lib now mkey bkey bt bn = Except.ok (lib', fine)) :
    ∃ km m kb b, resolveMemberW lib mkey bn = some (km, m) ∧
      resolveBookW lib bkey bt = some (kb, b) ∧ b.is_borrowed = true ∧
      b.borrower_id = some m.member_id ∧ fine = computeFineW b.due_date now ∧
      lib'.books = setKey kb (clearLoan b) lib.books ∧
      lib'.members = setKey km (removeBorrowed m b.book_id) lib.members ∧
      lib'.history = lib.history ++
        [HistEntry.retE now b.book_id m.member_id
          (computeFineW b.due_date now)] := by
  cases hm : resolveMemberW lib mkey bn with
  | none => simp [return_bookW, hm] at h
  | some em =>
    obtain ⟨km, m⟩ := em
    cases hb : resolveBookW lib bkey bt with
    | none => simp [return_bookW, hm, hb] at h
    | some eb =>
      obtain ⟨kb, b⟩ := eb
      by_cases hheld : b.is_borrowed = false ∨ b.borrower_id ≠ some m.member_id
      · simp [return_bookW, hm, hb, hheld] at h
      · push_neg at hheld
        obtain ⟨hbb, hbor⟩ := hheld
        have hbb' : b.is_borrowed = true := by
          cases hx : b.is_borrowed with
          | true => rfl
          | false => exact absurd hx hbb
        simp only [return_bookW, hm, hb, hbb', Bool.true_eq_false, ne_eq, hbor,
          not_true_eq_false, or_self, if_false, Except.ok.injEq, Prod.mk.injEq] at h
        exact ⟨km, m, kb, b, rfl, rfl, hbb', hbor, h.2.symm, by rw [← h.1],
          by rw [← h.1], by rw [← h.1]⟩

/-! ## The reachable-state invariant of the `Web.py` engine -/

/-- Book-side invariant: dict keys are unique and equal the stored
`book_id`, and a copy that is not out has no borrower and no due date. -/
def booksWF (books : List (String × BookW)) : Prop :=
  (books.map Prod.fst).Nodup ∧
  ∀ e ∈ books, e.1 = e.2.book_id ∧
    (e.2.is_borrowed = false → e.2.borrower_id = none ∧ e.2.due_date = none)

/-- Member-side invariant: the borrowed list has no duplicates and each
listed id names a book that is out to this member. -/
def memberOk (books : List (String × BookW)) (m : MemberW) : Prop :=
  m.borrowed_book_ids.Nodup ∧
  ∀ bid ∈ m.borrowed_book_ids, ∃ b : BookW,
    getEntry bid books = some (bid, b) ∧ b.is_borrowed = true ∧
    b.borrower_id = some m.member_id

/-- Full state invariant of the `Web.py` engine. -/
def WInv (lib : LibraryW) : Prop :=
  booksWF lib.books ∧ (lib.members.map Prod.fst).Nodup ∧
  ∀ e ∈ lib.members, e.1 = e.2.member_id ∧ memberOk lib.books e.2

theorem winv_initW : WInv initW := by
  refine ⟨⟨?_, ?_⟩, ?_, ?_⟩ <;> simp [initW]

theorem winv_add_bookW {lib : LibraryW} (h : WInv lib) (i t a : String) :
    WInv (add_bookW lib i t a).2 := by
  obtain ⟨⟨hndB, hBooks⟩, hndM, hMembers⟩ := h
  by_cases hp : (getEntry i lib.books).isSome
  · simpa [add_bookW, hp] using ⟨⟨hndB, hBooks⟩, hndM, hMembers⟩
  · have hnone : getEntry i lib.books = none := by
      cases hx : getEntry i lib.books with
      | none => rfl
      | some e => rw [hx] at hp; simp at hp
    have hni : i ∉ lib.books.map Prod.fst := getEntry_eq_none_iff.mp hnone
    simp only [add_bookW, hp, if_false, Bool.false_eq_true]
    refine ⟨⟨?_, ?_⟩, hndM, ?_⟩
    · have hdisj : ∀ x : BookW, (i, x) ∉ lib.books :=
        fun x hx => hni (List.mem_map_of_mem Prod.fst hx)
      simpa [List.nodup_append] using ⟨hndB, hdisj⟩
    · intro e he
      rcases List.mem_append.mp he with he | he
      · exact hBooks e he
      · simp at he
        subst he
        simp [newBookW]
    · intro e he
      refine ⟨(hMembers e he).1, (hMembers e he).2.1, ?_⟩
      intro bid hbid
      obtain ⟨b, hget, hbb, hbor⟩ := (hMembers e he).2.2 bid hbid
      exact ⟨b, getEntry_append_left hget, hbb, hbor⟩

theorem winv_add_memberW {lib : LibraryW} (h : WInv lib) (i n : String) :
    WInv (add_memberW lib i n).2 := by
  obtain ⟨hB, hndM, hMembers⟩ := h
  by_cases hp : (getEntry i lib.members).isSome
  · simpa [add_memberW, hp] using ⟨hB, hndM, hMembers⟩
  · have hnone : getEntry i lib.members = none := by
      cases hx : getEntry i lib.members with
      | none => rfl
      | some e => rw [hx] at hp; simp at hp
    have hni : i ∉ lib.members.map Prod.fst := getEntry_eq_none_iff.mp hnone
    simp only [add_memberW, hp, if_false, Bool.false_eq_true]
    refine ⟨hB, ?_, ?_⟩
    · have hdisj : ∀ x : MemberW, (i, x) ∉ lib.members :=
        fun x hx => hni (List.mem_map_of_mem Prod.fst hx)
      simpa [List.nodup_append] using ⟨hndM, hdisj⟩
    · intro e he
      rcases List.mem_append.mp he with he | he
      · exact hMembers e he
      · simp at he
        subst he
        exact ⟨rfl, by simp [memberOk, newMemberW]⟩

theorem winv_borrow_bookW {lib lib' : LibraryW} {now : Int}
    {mkey bkey : String} {bt bn : Bool} (hw : WInv lib)
    (h : borrow_bookW lib now mkey bkey bt bn = Except.ok lib') :
    WInv lib' := by
  obtain ⟨⟨hndB, hBooks⟩, hndM, hMembers⟩ := hw
  obtain ⟨km, m, kb, b, hm, hb, hbb, hbo, hme, hhi⟩ := borrow_bookW_ok_inv h
  have hmemM : (km, m) ∈ lib.members := resolveMemberW_mem hm
  have hmemB : (kb, b) ∈ lib.books := resolveBookW_mem hb
  have hkm : km = m.member_id := (hMembers _ hmemM).1
  have hmok : memberOk lib.books m := (hMembers _ hmemM).2
  have hkb : kb = b.book_id := (hBooks _ hmemB).1
  have hgb : getEntry kb lib.books = some (kb, b) := getEntry_of_mem_nodup hndB hmemB
  have hgb' : getEntry b.book_id lib.books = some (b.book_id, b) := by
    rw [← hkb]; exact hgb
  have hnotlisted : ∀ e ∈ lib.members, b.book_id ∉ e.2.borrowed_book_ids := by
    intro e he hmem
    obtain ⟨c, hgc, hcb, _⟩ := (hMembers e he).2.2 _ hmem
    rw [hgb'] at hgc
    have : c = b := by simpa using hgc.symm
    rw [this, hbb] at hcb
    exact Bool.false_ne_true hcb
  refine ⟨⟨?_, ?_⟩, ?_, ?_⟩
  · rw [hbo, setKey_map_fst]
    exact hndB
  · rw [hbo]
    intro e he
    rcases mem_setKey_nodup hndB he with ⟨heold, _⟩ | rfl
    · exact hBooks e heold
    · exact ⟨by simp [markBorrowed, hkb], by simp [markBorrowed]⟩
  · rw [hme, setKey_map_fst]
    exact hndM
  · rw [hme, hbo]
    intro e he
    rcases mem_setKey_nodup hndM he with ⟨heold, hnekm⟩ | rfl
    · refine ⟨(hMembers e heold).1, (hMembers e heold).2.1, ?_⟩
      intro bid hbid
      obtain ⟨c, hgc, hcb, hcor⟩ := (hMembers e heold).2.2 bid hbid
      have hne : bid ≠ kb := by
        intro hEq
        rw [hEq, hgb] at hgc
        have : c = b := by simpa using hgc.symm
        rw [this, hbb] at hcb
        exact Bool.false_ne_true hcb
      exact ⟨c, by rw [getEntry_setKey_ne _ _ hne]; exact hgc, hcb, hcor⟩
    · refine ⟨by simp [addBorrowed, hkm], ?_, ?_⟩
      · have hnl : b.book_id ∉ m.borrowed_book_ids := hnotlisted _ hmemM
        simp only [addBorrowed]
        simpa [List.nodup_append] using ⟨hmok.1, by simpa using hnl⟩
      · intro bid hbid
        simp only [addBorrowed, List.mem_append, List.mem_singleton] at hbid
        rcases hbid with hbid | rfl
        · obtain ⟨c, hgc, hcb, hcor⟩ := hmok.2 bid hbid
          have hne : bid ≠ kb := by
            intro hEq
            rw [hEq, hgb] at hgc
            have : c = b := by simpa using hgc.symm
            rw [this, hbb] at hcb
            exact Bool.false_ne_true hcb
          refine ⟨c, by rw [getEntry_setKey_ne _ _ hne]; exact hgc, hcb, ?_⟩
          simpa [addBorrowed] using hcor
        · refine ⟨markBorrowed b m.member_id (now + 7 * minutesPerDay), ?_, ?_, ?_⟩
          · have hself := getEntry_setKey_self
              (markBorrowed b m.member_id (now + 7 * minutesPerDay)) hgb
            rw [← hkb]
            exact hself
          · simp [markBorrowed]
          · simp [markBorrowed, addBorrowed]

theorem winv_return_bookW {lib lib' : LibraryW} {now fine : Int}
    {mkey bkey : String} {bt bn : Bool} (hw : WInv lib)
    (h : return_bookW lib now mkey bkey bt bn = Except.ok (lib', fine)) :
    WInv lib' := by
  obtain ⟨⟨hndB, hBooks⟩, hndM, hMembers⟩ := hw
  obtain ⟨km, m, kb, b, hm, hb, hbb, hbor, hfine, hbo, hme, hhi⟩ :=
    return_bookW_ok_inv h
  have hmemM : (km, m) ∈ lib.members := resolveMemberW_mem hm
  have hmemB : (kb, b) ∈ lib.books := resolveBookW_mem hb
  have hkm : km = m.member_id := (hMembers _ hmemM).1
  have hmok : memberOk lib.books m := (hMembers _ hmemM).2
  have hkb : kb = b.book_id := (hBooks _ hmemB).1
  have hgb : getEntry kb lib.books = some (kb, b) := getEntry_of_mem_nodup hndB hmemB
  refine ⟨⟨?_, ?_⟩, ?_, ?_⟩
  · rw [hbo, setKey_map_fst]
    exact hndB
  · rw [hbo]
    intro e he
    rcases mem_setKey_nodup hndB he with ⟨heold, _⟩ | rfl
    · exact hBooks e heold
    · exact ⟨by simp [clearLoan, hkb], by simp [clearLoan]⟩
  · rw [hme, setKey_map_fst]
    exact hndM
  · rw [hme, hbo]
    intro e he
    rcases mem_setKey_nodup hndM he with ⟨heold, hnekm⟩ | rfl
    · refine ⟨(hMembers e heold).1, (hMembers e heold).2.1, ?_⟩
      intro bid hbid
      obtain ⟨c, hgc, hcb, hcor⟩ := (hMembers e heold).2.2 bid hbid
      have hne : bid ≠ kb := by
        intro hEq
        rw [hEq, hgb] at hgc
        have hcb' : c = b := by simpa using hgc.symm
        subst hcb'
        rw [hbor] at hcor
        have hid : e.2.member_id = m.member_id := by simpa using hcor.symm
        exact hnekm (by rw [(hMembers e heold).1, hid, hkm])
      exact ⟨c, by rw [getEntry_setKey_ne _ _ hne]; exact hgc, hcb, hcor⟩
    · refine ⟨by simp [removeBorrowed, hkm], hmok.1.erase _, ?_⟩
      intro bid hbid
      simp only [removeBorrowed] at hbid
      obtain ⟨hneb, hbid'⟩ := (List.Nodup.mem_erase_iff hmok.1).mp hbid
      obtain ⟨c, hgc, hcb, hcor⟩ := hmok.2 bid hbid'
      have hne : bid ≠ kb := by rw [hkb]; exact hneb
      refine ⟨c, by rw [getEntry_setKey_ne _ _ hne]; exact hgc, hcb, ?_⟩
      simpa [removeBorrowed] using hcor

theorem winv_stepW {lib : LibraryW} (hw : WInv lib) (now : Int) (op : OpW) :
    WInv (stepW lib now op) := by
  cases op with
  | addBook i t a => exact winv_add_bookW hw i t a
  | addMember i n => exact winv_add_memberW hw i n
  | borrow mkey bkey bt bn =>
    simp only [stepW]
    cases hx : borrow_bookW lib now mkey bkey bt bn with
    | ok lib' => exact winv_borrow_bookW hw hx
    | error e => exact hw
  | ret mkey bkey bt bn =>
    simp only [stepW]
    cases hx : return_bookW lib now mkey bkey bt bn with
    | ok p =>
      obtain ⟨lib', fine⟩ := p
      exact winv_return_bookW hw hx
    | error e => exact hw

theorem winv_foldl (ops : List (Int × OpW)) :
    ∀ lib, WInv lib → WInv (ops.foldl (fun l p => stepW l p.1 p.2) lib) := by
  induction ops with
  | nil => intro lib hw; exact hw
  | cons p rest ih =>
    intro lib hw
    exact ih _ (winv_stepW hw p.1 p.2)

/-- Every state reachable from the fresh `Web.py` state by the public
operations keeps the full invariant. -/
theorem winv_runW (ops : List (Int × OpW)) : WInv (runW ops) :=
  winv_foldl ops initW winv_initW

/-! ## `app.py` lemmas: search split, success shapes, copy bounds -/

theorem searchSplitA_eq {title : String} {l : List BookA} :
    ∀ {pre post : List BookA} {b : BookA},
      searchSplitA title l = some (pre, b, post) → l = pre ++ b :: post := by
  induction l with
  | nil => intro pre post b h; simp [searchSplitA] at h
  | cons hd tl ih =>
    intro pre post b h
    by_cases ht : pyLower hd.title = pyLower title
    · simp only [searchSplitA, ht, if_pos, Option.some.injEq, Prod.mk.injEq] at h
      obtain ⟨h1, h2, h3⟩ := h
      rw [← h1, ← h2, ← h3]
      rfl
    · simp only [searchSplitA, ht, if_neg, not_false_iff] at h
      cases hx : searchSplitA title tl with
      | none => rw [hx] at h; simp at h
      | some q =>
        obtain ⟨pre', b', post'⟩ := q
        rw [hx] at h
        simp only [Option.some.injEq, Prod.mk.injEq] at h
        obtain ⟨h1, h2, h3⟩ := h
        rw [← h1, ← h2, ← h3]
        simp [ih hx]

theorem borrow_bookA_ok_inv {lib lib' : LibraryA} {mid : Int} {title : String}
    (h : borrow_bookA lib mid title = Except.ok lib') :
    ∃ mk m pre b post, getEntry mid lib.members = some (mk, m) ∧
      searchSplitA title lib.books = some (pre, b, post) ∧
      0 < b.available_copies ∧
      lib'.books = pre ++ decCopy b :: post ∧
      lib'.members = setKey mk (addBorrowedA m b.book_id) lib.members := by
  cases hm : getEntry mid lib.members with
  | none => simp [borrow_bookA, hm] at h
  | some em =>
    obtain ⟨mk, m⟩ := em
    cases hs : searchSplitA title lib.books with
    | none => simp [borrow_bookA, hm, hs] at h
    | some q =>
      obtain ⟨pre, b, post⟩ := q
      by_cases hav : b.available_copies ≤ 0
      · simp [borrow_bookA, hm, hs, hav] at h
      · simp only [borrow_bookA, hm, hs, hav, if_neg, not_false_iff,
          Except.ok.injEq] at h
        exact ⟨mk, m, pre, b, post, rfl, rfl, by omega, by rw [← h], by rw [← h]⟩

theorem return_bookA_ok_inv {lib lib' : LibraryA} {mid : Int} {title : String}
    (h : return_bookA lib mid title = Except.ok lib') :
    ∃ mk m pre b post, getEntry mid lib.members = some (mk, m) ∧
      searchSplitA title lib.books = some (pre, b, post) ∧
      ((b.book_id ∈ m.borrowed_books ∧ lib'.books = pre ++ incCopy b :: post ∧
        lib'.members = setKey mk (removeBorrowedA m b.book_id) lib.members) ∨
       (b.book_id ∉ m.borrowed_books ∧ lib' = lib)) := by
  cases hm : getEntry mid lib.members with
  | none => simp [return_bookA, hm] at h
  | some em =>
    obtain ⟨mk, m⟩ := em
    cases hs : searchSplitA title lib.books with
    | none => simp [return_bookA, hm, hs] at h
    | some q =>
      obtain ⟨pre, b, post⟩ := q
      by_cases hin : b.book_id ∈ m.borrowed_books
      · simp only [return_bookA, hm, hs, hin, if_pos, Except.ok.injEq] at h
        exact ⟨mk, m, pre, b, post, rfl, rfl,
          Or.inl ⟨hin, by rw [← h], by rw [← h]⟩⟩
      · simp only [return_bookA, hm, hs, hin, if_neg, not_false_iff,
          Except.ok.injEq] at h
        exact ⟨mk, m, pre, b, post, rfl, rfl, Or.inr ⟨hin, h.symm⟩⟩

/-- Copy-count bounds of the `app.py` book records. -/
def boundsA (lib : LibraryA) : Prop :=
  ∀ b ∈ lib.books, 0 ≤ b.available_copies ∧ b.available_copies ≤ b.total_copies

/-- An operation whose book insertions carry a nonnegative copy count. -/
def OpA.copiesOk : OpA → Prop
  | .addBook _ _ _ c => 0 ≤ c
  | _ => True

instance : DecidablePred OpA.copiesOk := by
  intro op
  cases op with
  | addBook i t a c => exact inferInstanceAs (Decidable (0 ≤ c))
  | addMember i n => exact inferInstanceAs (Decidable True)
  | borrow i t => exact inferInstanceAs (Decidable True)
  | ret i t => exact inferInstanceAs (Decidable True)

theorem boundsA_stepA {lib : LibraryA} (hb : boundsA lib) {op : OpA}
    (hc : op.copiesOk) : boundsA (stepA lib op) := by
  cases op with
  | addBook i t a c =>
    intro b hmem
    rcases List.mem_append.mp hmem with hmem | hmem
    · exact hb b hmem
    · simp at hmem
      subst hmem
      exact ⟨hc, le_refl _⟩
  | addMember i n =>
    intro b hmem
    exact hb b hmem
  | borrow i t =>
    simp only [stepA]
    cases hx : borrow_bookA lib i t with
    | error e => exact hb
    | ok lib' =>
      obtain ⟨mk, m, pre, bk, post, hm, hs, hav, hbo, hme⟩ := borrow_bookA_ok_inv hx
      intro b hmem
      rw [hbo] at hmem
      have hsplit := searchSplitA_eq hs
      rcases List.mem_append.mp hmem with hmem | hmem
      · exact hb b (hsplit ▸ List.mem_append_left _ hmem)
      · rcases List.mem_cons.mp hmem with rfl | hmem
        · obtain ⟨h1, h2⟩ :=
            hb bk (hsplit ▸ List.mem_append_right _ (List.mem_cons_self _ _))
          simp only [decCopy]
          omega
        · exact hb b (hsplit ▸ List.mem_append_right _ (List.mem_cons_of_mem _ hmem))
  | ret i t =>
    simp only [stepA]
    cases hx : return_bookA lib i t with
    | error e => exact hb
    | ok lib' =>
      obtain ⟨mk, m, pre, bk, post, hm, hs, hcase⟩ := return_bookA_ok_inv hx
      rcases hcase with ⟨hin, hbo, hme⟩ | ⟨hnin, rfl⟩
      · intro b hmem
        rw [hbo] at hmem
        have hsplit := searchSplitA_eq hs
        rcases List.mem_append.mp hmem with hmem | hmem
        · exact hb b (hsplit ▸ List.mem_append_left _ hmem)
        · rcases List.mem_cons.mp hmem with rfl | hmem
          · obtain ⟨h1, h2⟩ :=
              hb bk (hsplit ▸ List.mem_append_right _ (List.mem_cons_self _ _))
            simp only [incCopy]
            omega
          · exact hb b (hsplit ▸ List.mem_append_right _ (List.mem_cons_of_mem _ hmem))
      · exact hb

theorem boundsA_foldl (ops : List OpA) :
    ∀ lib, boundsA lib → (∀ op ∈ ops, op.copiesOk) →
      boundsA (ops.foldl stepA lib) := by
  induction ops with
  | nil => intro lib hb _; exact hb
  | cons op rest ih =>
    intro lib hb hc
    exact ih _ (boundsA_stepA hb (hc op (List.mem_cons_self _ _)))
      fun o ho => hc o (List.mem_cons_of_mem _ ho)

/-! ## History-ledger lemmas for the `Web.py` engine -/

/-- History timestamps are in chronological (non-decreasing) order. -/
def histMono (h : List HistEntry) : Prop :=
  List.Chain' (fun a b => a.timestamp ≤ b.timestamp) h

/-- Chronological history whose entries all date from `bnd` or before. -/
def boundedHist (lib : LibraryW) (bnd : Int) : Prop :=
  histMono lib.history ∧ ∀ e ∈ lib.history, e.timestamp ≤ bnd

theorem add_bookW_history (lib : LibraryW) (i t a : String) :
    (add_bookW lib i t a).2.history = lib.history := by
  by_cases hp : (getEntry i lib.books).isSome <;> simp [add_bookW, hp]

theorem add_memberW_history (lib : LibraryW) (i n : String) :
    (add_memberW lib i n).2.history = lib.history := by
  by_cases hp : (getEntry i lib.members).isSome <;> simp [add_memberW, hp]

theorem stepW_history (lib : LibraryW) (now : Int) (op : OpW) :
    (stepW lib now op).history = lib.history ∨
    ∃ e, (stepW lib now op).history = lib.history ++ [e] ∧
      e.timestamp = now := by
  cases op with
  | addBook i t a => exact Or.inl (add_bookW_history lib i t a)
  | addMember i n => exact Or.inl (add_memberW_history lib i n)
  | borrow mkey bkey bt bn =>
    simp only [stepW]
    cases hx : borrow_bookW lib now mkey bkey bt bn with
    | error e => exact Or.inl rfl
    | ok lib' =>
      obtain ⟨km, m, kb, b, _, _, _, _, _, hhi⟩ := borrow_bookW_ok_inv hx
      exact Or.inr ⟨_, hhi, rfl⟩
  | ret mkey bkey bt bn =>
    simp only [stepW]
    cases hx : return_bookW lib now mkey bkey bt bn with
    | error e => exact Or.inl rfl
    | ok p =>
      obtain ⟨lib', fine⟩ := p
      obtain ⟨km, m, kb, b, _, _, _, _, _, _, _, hhi⟩ := return_bookW_ok_inv hx
      exact Or.inr ⟨_, hhi, rfl⟩

theorem boundedHist_stepW {lib : LibraryW} {bnd now : Int} {op : OpW}
    (h : boundedHist lib bnd) (hle : bnd ≤ now) :
    boundedHist (stepW lib now op) now := by
  rcases stepW_history lib now op with heq | ⟨e, heq, het⟩
  · rw [boundedHist, heq]
    exact ⟨h.1, fun x hx => le_trans (h.2 x hx) hle⟩
  · rw [boundedHist, heq]
    constructor
    · refine List.Chain'.append h.1 (List.chain'_singleton e) ?_
      intro x hx y hy
      simp only [List.head?_cons, Option.mem_def, Option.some.injEq] at hy
      obtain ⟨hne, rfl⟩ := List.mem_getLast?_eq_getLast hx
      subst hy
      rw [het]
      exact le_trans (h.2 _ (List.getLast_mem hne)) hle
    · intro x hx
      rcases List.mem_append.mp hx with hx | hx
      · exact le_trans (h.2 x hx) hle
      · simp only [List.mem_singleton] at hx
        subst hx
        rw [het]

theorem histMono_foldl (ops : List (Int × OpW)) :
    ∀ (lib : LibraryW) (bnd : Int), boundedHist lib bnd →
      List.Chain' (fun a b => a ≤ b) (bnd :: ops.map Prod.fst) →
      histMono ((ops.foldl (fun l p => stepW l p.1 p.2) lib).history) := by
  induction ops with
  | nil => intro lib bnd h _; exact h.1
  | cons p rest ih =>
    intro lib bnd h hchain
    simp only [List.map_cons] at hchain
    have h1 := (List.chain'_cons.mp hchain).1
    have h2 := (List.chain'_cons.mp hchain).2
    exact ih (stepW lib p.1 p.2) p.1 (boundedHist_stepW h h1) h2

/-- A run whose operation times are non-decreasing produces a history in
chronological order. -/
theorem histMono_runW (ops : List (Int × OpW))
    (h : List.Chain' (fun a b => a ≤ b) (ops.map Prod.fst)) :
    histMono (runW ops).history := by
  cases ops with
  | nil => exact List.chain'_nil
  | cons p rest =>
    have hb : boundedHist initW p.1 := ⟨List.chain'_nil, by simp [initW]⟩
    refine histMono_foldl (p :: rest) initW p.1 hb ?_
    simp only [List.map_cons] at h ⊢
    exact List.chain'_cons.mpr ⟨le_refl _, h⟩

deriving instance DecidableEq for Except

/-! ## Example states used by concrete witnesses -/

/-- A small `Web.py` run: one book, one member. -/
def exOpsW : List (Int × OpW) :=
  [(0, .addBook "B1" "Dune" "Herbert"), (1, .addMember "M1" "Alice")]

/-- The same run followed by a successful borrow. -/
def exOpsW1 : List (Int × OpW) := exOpsW ++ [(2, .borrow "M1" "B1" false false)]

/-- A small `app.py` run: one single-copy book, one member. -/
def exOpsA : List OpA := [.addBook 1 "T" "A" 1, .addMember 1 "M"]

/-! ## The claims -/

/-- C1 (amended): in the `app.py` variant every book satisfies
`0 ≤ available_copies ≤ total_copies` after any sequence of public
operations, provided every add-book operation supplies a nonnegative copy
count.  (The unrestricted claim fails: see the counterexample.) -/
theorem C1_copy_bounds (ops : List OpA) (hc : ∀ op ∈ ops, op.copiesOk) :
    ∀ b ∈ (runA ops).books,
      0 ≤ b.available_copies ∧ b.available_copies ≤ b.total_copies := by
  refine boundsA_foldl ops initA ?_ hc
  intro b hb
  simp [initA] at hb

theorem C1_copy_bounds_witness :
    0 ≤ (⟨1, "T", "A", 2, 1⟩ : BookA).available_copies ∧
      (⟨1, "T", "A", 2, 1⟩ : BookA).available_copies ≤
        (⟨1, "T", "A", 2, 1⟩ : BookA).total_copies :=
  C1_copy_bounds [.addBook 1 "T" "A" 2, .addMember 1 "M", .borrow 1 "T"]
    (by decide) ⟨1, "T", "A", 2, 1⟩ (by decide)

/-- C1 counterexample: the gradio handler accepts `copies = -1`
(`int(copies)` is unchecked), so one add-book operation already yields a
book with `available_copies = -1 < 0`. -/
theorem C1_counterexample :
    ∃ b ∈ (runA [.addBook 1 "T" "A" (-1)]).books, b.available_copies < 0 := by
  decide

/-- C2: with the member and the book resolved but no copy available — the
flag `is_borrowed` in `Web.py`, `available_copies ≤ 0` in `app.py` — borrow
fails with the no-copies error (`"Book already borrowed."`,
`AlreadyBorrowedError`) and the whole state is untouched. -/
theorem C2_borrow_unavailable :
    (∀ (lib : LibraryW) (now : Int) (mkey bkey : String) (bt bn : Bool)
        (km : String) (m : MemberW) (kb : String) (b : BookW),
        resolveMemberW lib mkey bn = some (km, m) →
        resolveBookW lib bkey bt = some (kb, b) →
        b.is_borrowed = true →
        borrow_bookW lib now mkey bkey bt bn = Except.error WebErr.alreadyBorrowed ∧
        stepW lib now (OpW.borrow mkey bkey bt bn) = lib) ∧
    (∀ (lib : LibraryA) (mid : Int) (title : String)
        (mk : Int) (m : MemberA) (pre post : List BookA) (b : BookA),
        getEntry mid lib.members = some (mk, m) →
        searchSplitA title lib.books = some (pre, b, post) →
        b.available_copies ≤ 0 →
        borrow_bookA lib mid title = Except.error AppErr.alreadyBorrowed ∧
        stepA lib (OpA.borrow mid title) = lib) := by
  constructor
  · intro lib now mkey bkey bt bn km m kb b hm hb hbb
    have h1 : borrow_bookW lib now mkey bkey bt bn = .error .alreadyBorrowed := by
      simp [borrow_bookW, hm, hb, hbb]
    exact ⟨h1, by simp [stepW, h1]⟩
  · intro lib mid title mk m pre post b hm hs hav
    have h1 : borrow_bookA lib mid title = .error .alreadyBorrowed := by
      simp [borrow_bookA, hm, hs, hav]
    exact ⟨h1, by simp [stepA, h1]⟩

theorem C2_borrow_unavailable_witness :
    borrow_bookW (runW exOpsW1) 9 "M1" "B1" false false =
      Except.error WebErr.alreadyBorrowed ∧
    borrow_bookA (runA [.addBook 1 "T" "A" 0, .addMember 1 "M"]) 1 "T" =
      Except.error AppErr.alreadyBorrowed :=
  ⟨(C2_borrow_unavailable.1 (runW exOpsW1) 9 "M1" "B1" false false
      "M1" ⟨"M1", "Alice", ["B1"]⟩
      "B1" ⟨"B1", "Dune", "Herbert", true, some "M1", some (.valid 10082)⟩
      (by decide) (by decide) rfl).1,
   (C2_borrow_unavailable.2 (runA [.addBook 1 "T" "A" 0, .addMember 1 "M"]) 1 "T"
      1 ⟨1, "M", []⟩ [] [] ⟨1, "T", "A", 0, 0⟩
      (by decide) (by decide) (by decide)).1⟩

/-- C3 (amended): in the `Web.py` variant, returning a book the resolved
member does not hold fails with `"This member does not hold that book."`
(the spec's `NotHeldByMember`) and mutates nothing; in the `app.py`
variant such a return is a silent no-op that reports success (it still
mutates nothing).  (The unamended claim — that the operation *fails* —
is refuted by the counterexample.) -/
theorem C3_return_not_held :
    (∀ (lib : LibraryW) (now : Int) (mkey bkey : String) (bt bn : Bool)
        (km : String) (m : MemberW) (kb : String) (b : BookW),
        resolveMemberW lib mkey bn = some (km, m) →
        resolveBookW lib bkey bt = some (kb, b) →
        (b.is_borrowed = false ∨ b.borrower_id ≠ some m.member_id) →
        return_bookW lib now mkey bkey bt bn = Except.error WebErr.notHeld ∧
        stepW lib now (OpW.ret mkey bkey bt bn) = lib) ∧
    (∀ (lib : LibraryA) (mid : Int) (title : String)
        (mk : Int) (m : MemberA) (pre post : List BookA) (b : BookA),
        getEntry mid lib.members = some (mk, m) →
        searchSplitA title lib.books = some (pre, b, post) →
        b.book_id ∉ m.borrowed_books →
        return_bookA lib mid title = Except.ok lib) := by
  constructor
  · intro lib now mkey bkey bt bn km m kb b hm hb hheld
    have h1 : return_bookW lib now mkey bkey bt bn = .error .notHeld := by
      simp only [return_bookW, hm, hb]
      rw [if_pos hheld]
    exact ⟨h1, by simp [stepW, h1]⟩
  · intro lib mid title mk m pre post b hm hs hnin
    simp [return_bookA, hm, hs, hnin]

theorem C3_return_not_held_witness :
    return_bookW (runW exOpsW) 9 "M1" "B1" false false =
      Except.error WebErr.notHeld ∧
    return_bookA (runA exOpsA) 1 "T" = Except.ok (runA exOpsA) :=
  ⟨(C3_return_not_held.1 (runW exOpsW) 9 "M1" "B1" false false
      "M1" ⟨"M1", "Alice", []⟩ "B1" ⟨"B1", "Dune", "Herbert", false, none, none⟩
      (by decide) (by decide) (Or.inl rfl)).1,
   C3_return_not_held.2 (runA exOpsA) 1 "T" 1 ⟨1, "M", []⟩ [] [] ⟨1, "T", "A", 1, 1⟩
      (by decide) (by decide) (by decide)⟩

/-- C3 counterexample: in `app.py`, a member returning a book it never
borrowed gets a success (`Member.return_book` is a silent no-op and the
handler reports "Book returned successfully"), not a failure, contradicting
"return fails with NotHeldByMember". -/
theorem C3_counterexample :
    return_bookA (runA exOpsA) 1 "T" = Except.ok (runA exOpsA) ∧
    ∀ err : AppErr, return_bookA (runA exOpsA) 1 "T" ≠ Except.error err := by
  refine ⟨by decide, ?_⟩
  intro err
  cases err <;> decide

/-- C7 (amended): in the `Web.py` variant, adding a book or member whose
identifier is already present fails (`(False, "... already exists.")`)
and leaves the state unchanged; in the `app.py` variant `add_book`
appends unconditionally (no duplicate check) and `add_member` overwrites
the existing record in place. -/
theorem C7_duplicate_id :
    (∀ (lib : LibraryW) (i t a : String) (e : String × BookW),
        getEntry i lib.books = some e → add_bookW lib i t a = (false, lib)) ∧
    (∀ (lib : LibraryW) (i n : String) (e : String × MemberW),
        getEntry i lib.members = some e → add_memberW lib i n = (false, lib)) ∧
    (∀ (lib : LibraryA) (i : Int) (t a : String) (c : Int),
        (add_bookA lib i t a c).books = lib.books ++ [newBookA i t a c]) ∧
    (∀ (lib : LibraryA) (i : Int) (n : String) (e : Int × MemberA),
        getEntry i lib.members = some e →
        (add_memberA lib i n).members = setKey i (newMemberA i n) lib.members) := by
  refine ⟨?_, ?_, ?_, ?_⟩
  · intro lib i t a e h
    simp [add_bookW, h]
  · intro lib i n e h
    simp [add_memberW, h]
  · intro lib i t a c
    rfl
  · intro lib i n e h
    simp [add_memberA, dictInsert, h]

theorem C7_duplicate_id_witness :
    add_bookW (runW exOpsW) "B1" "Other" "X" = (false, runW exOpsW) ∧
    add_memberW (runW exOpsW) "M1" "Bob" = (false, runW exOpsW) ∧
    (add_memberA (runA exOpsA) 1 "Bob").members =
      setKey 1 (newMemberA 1 "Bob") (runA exOpsA).members :=
  ⟨C7_duplicate_id.1 (runW exOpsW) "B1" "Other" "X"
      ("B1", ⟨"B1", "Dune", "Herbert", false, none, none⟩) (by decide),
   C7_duplicate_id.2.1 (runW exOpsW) "M1" "Bob"
      ("M1", ⟨"M1", "Alice", []⟩) (by decide),
   C7_duplicate_id.2.2.2 (runA exOpsA) 1 "Bob" (1, ⟨1, "M", []⟩) (by decide)⟩

/-- C7 counterexample: in `app.py`, adding a second book with the already
present id `1` succeeds and appends a second record — the add neither
fails nor leaves the state unchanged. -/
theorem C7_counterexample :
    (runA [.addBook 1 "T" "A" 1, .addBook 1 "X" "Y" 1]).books =
      [newBookA 1 "T" "A" 1, newBookA 1 "X" "Y" 1] ∧
    runA [.addBook 1 "T" "A" 1, .addBook 1 "X" "Y" 1] ≠
      runA [.addBook 1 "T" "A" 1] := by
  constructor
  · decide
  · decide

/-- C8 (amended): `Web.py`'s `load_data` never propagates a failure — a
missing file, content on which reading raises, and a non-dict document
all fall back to empty collections (its result type is total).  The
`app.py` loader returns empty collections only for a missing file; on
malformed content its `json.load` error propagates to the caller
(only `FileNotFoundError` is caught).  (The unamended "load never raises"
is refuted by the counterexample.) -/
theorem C8_load_fallback :
    load_dataW StoreW.missing = ([], [], []) ∧
    load_dataW StoreW.corrupt = ([], [], []) ∧
    load_dataW StoreW.notDict = ([], [], []) ∧
    load_from_fileA StoreFileA.missing StoreFileA.missing = Except.ok ([], []) ∧
    (∀ mf, load_from_fileA StoreFileA.corrupt mf = Except.error ()) ∧
    (∀ bl, load_from_fileA (StoreFileA.wellFormed bl) StoreFileA.corrupt =
      Except.error ()) := by
  refine ⟨rfl, rfl, rfl, rfl, ?_, ?_⟩
  · intro mf
    rfl
  · intro bl
    rfl

/-- C8 counterexample: `app.py`'s `load_from_file` with an unreadable
books file raises (`json.JSONDecodeError` is not caught), contradicting
"load never raises to its caller". -/
theorem C8_counterexample :
    load_from_fileA StoreFileA.corrupt (StoreFileA.wellFormed []) =
      Except.error () := rfl

/-- C9 (amended): in the `Web.py` variant, after any sequence of public
operations every member's list of borrowed book ids is duplicate-free.
(In the `app.py` variant a member may borrow two copies of one book and
the list then holds the id twice: see the counterexample.) -/
theorem C9_borrowed_nodup (ops : List (Int × OpW)) (e : String × MemberW)
    (he : e ∈ (runW ops).members) : e.2.borrowed_book_ids.Nodup :=
  (((winv_runW ops).2.2) e he).2.1

theorem C9_borrowed_nodup_witness :
    (("M1", (⟨"M1", "Alice", ["B1"]⟩ : MemberW)) : String × MemberW).2.borrowed_book_ids.Nodup :=
  C9_borrowed_nodup exOpsW1 ("M1", ⟨"M1", "Alice", ["B1"]⟩) (by decide)

/-- C9 counterexample: in `app.py`, member 1 borrows the two copies of
book 1 in turn; its borrowed list becomes `[1, 1]`, which has a
duplicate. -/
theorem C9_counterexample :
    ∃ e ∈ (runA [.addBook 1 "T" "A" 2, .addMember 1 "M",
      .borrow 1 "T", .borrow 1 "T"]).members, ¬ e.2.borrowed_books.Nodup := by
  decide

/-- C10: `add_book` stores the title and author stripped (`.strip()`),
`add_member` the name stripped, and the by-title / by-name lookups strip
and lower-case their query before the case-insensitive comparison; hence a
stored record is found by any whitespace-padded, case-varied form of its
title (resp. name) — provided no earlier record carries the same folded
title/name (first match by insertion order wins). -/
theorem C10_ci_lookup :
    (∀ (lib : LibraryW) (i t a q : String) (lib' : LibraryW),
        add_bookW lib i t a = (true, lib') →
        (∀ e ∈ lib.books, pyLower e.2.title ≠ pyLower (pyStrip t)) →
        pyLower (pyStrip q) = pyLower (pyStrip t) →
        resolveBookW lib' q true = some (i, newBookW i t a)) ∧
    (∀ (lib : LibraryW) (i n q : String) (lib' : LibraryW),
        add_memberW lib i n = (true, lib') →
        (∀ e ∈ lib.members, pyLower e.2.name ≠ pyLower (pyStrip n)) →
        pyLower (pyStrip q) = pyLower (pyStrip n) →
        resolveMemberW lib' q true = some (i, newMemberW i n)) := by
  constructor
  · intro lib i t a q lib' hadd hnone hq
    by_cases hp : (getEntry i lib.books).isSome
    · simp [add_bookW, hp] at hadd
    · simp only [add_bookW, hp, if_false, Bool.false_eq_true, Prod.mk.injEq,
        true_and] at hadd
      simp only [resolveBookW, if_true]
      rw [← hadd]
      have hstep : ∀ e ∈ lib.books,
          ¬ pyLower (e.2.title) = pyLower (pyStrip q) := by
        intro e he
        rw [hq]
        exact hnone e he
      rw [findEntryP_append_right _ hstep]
      simp [findEntryP, newBookW, hq]
  · intro lib i n q lib' hadd hnone hq
    by_cases hp : (getEntry i lib.members).isSome
    · simp [add_memberW, hp] at hadd
    · simp only [add_memberW, hp, if_false, Bool.false_eq_true, Prod.mk.injEq,
        true_and] at hadd
      simp only [resolveMemberW, if_true]
      rw [← hadd]
      have hstep : ∀ e ∈ lib.members,
          ¬ pyLower (e.2.name) = pyLower (pyStrip q) := by
        intro e he
        rw [hq]
        exact hnone e he
      rw [findEntryP_append_right _ hstep]
      simp [findEntryP, newMemberW, hq]

theorem C10_ci_lookup_witness :
    resolveBookW (add_bookW initW "B1" " Dune " "Herbert").2 "  dUnE  " true =
      some ("B1", newBookW "B1" " Dune " "Herbert") ∧
    resolveMemberW (add_memberW initW "M1" " Alice").2 " ALICE " true =
      some ("M1", newMemberW "M1" " Alice") :=
  ⟨C10_ci_lookup.1 initW "B1" " Dune " "Herbert" "  dUnE  "
      ((add_bookW initW "B1" " Dune " "Herbert").2)
      (by decide) (by decide) (by decide),
   C10_ci_lookup.2 initW "M1" " Alice" " ALICE "
      ((add_memberW initW "M1" " Alice").2)
      (by decide) (by decide) (by decide)⟩

/-- C6: the history ledger grows by exactly one entry (stamped with the
operation time) on a successful borrow or return, is untouched by the add
operations and by any failed operation, is only ever extended (never
mutated or rewritten), and a run whose operation times are non-decreasing
leaves the ledger in chronological order. -/
theorem C6_history_ledger :
    (∀ (lib : LibraryW) (i t a : String),
        (add_bookW lib i t a).2.history = lib.history) ∧
    (∀ (lib : LibraryW) (i n : String),
        (add_memberW lib i n).2.history = lib.history) ∧
    (∀ (lib : LibraryW) (now : Int) (mkey bkey : String) (bt bn : Bool)
        (lib' : LibraryW),
        borrow_bookW lib now mkey bkey bt bn = Except.ok lib' →
        ∃ e, lib'.history = lib.history ++ [e] ∧ e.timestamp = now) ∧
    (∀ (lib : LibraryW) (now : Int) (mkey bkey : String) (bt bn : Bool)
        (err : WebErr),
        borrow_bookW lib now mkey bkey bt bn = Except.error err →
        stepW lib now (OpW.borrow mkey bkey bt bn) = lib) ∧
    (∀ (lib : LibraryW) (now : Int) (mkey bkey : String) (bt bn : Bool)
        (lib' : LibraryW) (fine : Int),
        return_bookW lib now mkey bkey bt bn = Except.ok (lib', fine) →
        ∃ e, lib'.history = lib.history ++ [e] ∧ e.timestamp = now) ∧
    (∀ (lib : LibraryW) (now : Int) (mkey bkey : String) (bt bn : Bool)
        (err : WebErr),
        return_bookW lib now mkey bkey bt bn = Except.error err →
        stepW lib now (OpW.ret mkey bkey bt bn) = lib) ∧
    (∀ (lib : LibraryW) (now : Int) (op : OpW),
        ∃ tail, (stepW lib now op).history = lib.history ++ tail) ∧
    (∀ ops : List (Int × OpW),
        List.Chain' (fun a b => a ≤ b) (ops.map Prod.fst) →
        histMono (runW ops).history) := by
  refine ⟨add_bookW_history, add_memberW_history, ?_, ?_, ?_, ?_, ?_, histMono_runW⟩
  · intro lib now mkey bkey bt bn lib' h
    obtain ⟨km, m, kb, b, _, _, _, _, _, hhi⟩ := borrow_bookW_ok_inv h
    exact ⟨_, hhi, rfl⟩
  · intro lib now mkey bkey bt bn err h
    simp [stepW, h]
  · intro lib now mkey bkey bt bn lib' fine h
    obtain ⟨km, m, kb, b, _, _, _, _, _, _, _, hhi⟩ := return_bookW_ok_inv h
    exact ⟨_, hhi, rfl⟩
  · intro lib now mkey bkey bt bn err h
    simp [stepW, h]
  · intro lib now op
    rcases stepW_history lib now op with heq | ⟨e, heq, _⟩
    · exact ⟨[], by simp [heq]⟩
    · exact ⟨[e], heq⟩

theorem C6_history_ledger_witness :
    (add_bookW (runW exOpsW) "B2" "Emma" "Austen").2.history =
      (runW exOpsW).history ∧
    (∃ e, (runW exOpsW1).history = (runW exOpsW).history ++ [e] ∧
      e.timestamp = 2) ∧
    stepW initW 0 (OpW.borrow "nobody" "nothing" false false) = initW ∧
    histMono (runW exOpsW1).history := by
  refine ⟨C6_history_ledger.1 (runW exOpsW) "B2" "Emma" "Austen", ?_, ?_, ?_⟩
  · exact C6_history_ledger.2.2.1 (runW exOpsW) 2 "M1" "B1" false false
      (runW exOpsW1) (by decide)
  · exact C6_history_ledger.2.2.2.1 initW 0 "nobody" "nothing" false false
      WebErr.memberNotFound (by decide)
  · refine C6_history_ledger.2.2.2.2.2.2.2 exOpsW1 ?_
    norm_num [exOpsW1, exOpsW, List.chain'_cons]

/-- After a successful id-addressed borrow, an id-addressed return by the
same member succeeds, and its effect on the pre-borrow state is: clear the
loan fields of the borrowed book, append-then-remove the id in the
member's list, and append the borrow/return pair to the history. -/
theorem borrow_return_chain {lib lib₁ : LibraryW} {t t' : Int}
    {mid bid : String}
    (h : borrow_bookW lib t mid bid false false = Except.ok lib₁) :
    ∃ km m kb b lib₂,
      getEntry mid lib.members = some (km, m) ∧
      getEntry bid lib.books = some (kb, b) ∧
      km = mid ∧ kb = bid ∧ b.is_borrowed = false ∧
      return_bookW lib₁ t' mid bid false false = Except.ok
        (lib₂, computeFineW (some (DateVal.valid (t + 7 * minutesPerDay))) t') ∧
      lib₂.books = setKey bid
        (clearLoan (markBorrowed b m.member_id (t + 7 * minutesPerDay))) lib.books ∧
      lib₂.members = setKey mid
        (removeBorrowed (addBorrowed m b.book_id) b.book_id) lib.members ∧
      lib₂.history = lib.history ++
        [HistEntry.borrowE t b.book_id m.member_id
          (DateVal.valid (t + 7 * minutesPerDay)),
         HistEntry.retE t' b.book_id m.member_id
          (computeFineW (some (DateVal.valid (t + 7 * minutesPerDay))) t')] := by
  obtain ⟨km, m, kb, b, hm, hb, hbb, hbo, hme, hhi⟩ := borrow_bookW_ok_inv h
  simp only [resolveMemberW, Bool.false_eq_true, if_false] at hm
  simp only [resolveBookW, Bool.false_eq_true, if_false] at hb
  have hkm : km = mid := getEntry_key hm
  have hkb : kb = bid := getEntry_key hb
  rw [hkm] at hm hme
  rw [hkb] at hb hbo
  have hm₁ : resolveMemberW lib₁ mid false = some (mid, addBorrowed m b.book_id) := by
    simp only [resolveMemberW, Bool.false_eq_true, if_false]
    rw [hme]
    exact getEntry_setKey_self _ hm
  have hb₁ : resolveBookW lib₁ bid false =
      some (bid, markBorrowed b m.member_id (t + 7 * minutesPerDay)) := by
    simp only [resolveBookW, Bool.false_eq_true, if_false]
    rw [hbo]
    exact getEntry_setKey_self _ hb
  have hsucc : ∃ p, return_bookW lib₁ t' mid bid false false = Except.ok p := by
    simp only [return_bookW, hm₁, hb₁]
    rw [if_neg]
    · exact ⟨_, rfl⟩
    · simp [markBorrowed, addBorrowed]
  obtain ⟨⟨lib₂, fine⟩, hret⟩ := hsucc
  obtain ⟨km₂, m₂, kb₂, b₂, hm₂, hb₂, _, _, hfine₂, hbo₂, hme₂, hhi₂⟩ :=
    return_bookW_ok_inv hret
  rw [hm₁] at hm₂
  rw [hb₁] at hb₂
  injection Option.some.inj hm₂ with h1 h2
  subst h1
  subst h2
  injection Option.some.inj hb₂ with h3 h4
  subst h3
  subst h4
  have hfine' : fine =
      computeFineW (some (DateVal.valid (t + 7 * minutesPerDay))) t' := by
    rw [hfine₂]
    simp [markBorrowed]
  subst hfine'
  refine ⟨mid, m, bid, b, lib₂, hm, hb, rfl, rfl, hbb, hret, ?_, ?_, ?_⟩
  · rw [hbo₂, hbo, setKey_setKey]
  · rw [hme₂, hme, setKey_setKey]
    simp [markBorrowed]
  · rw [hhi₂, hhi, List.append_assoc]
    simp [markBorrowed, addBorrowed]

theorem computeFineW_valid (due now : Int) :
    computeFineW (some (DateVal.valid due)) now =
      max 0 (Int.fdiv (now - due) minutesPerDay) * 10 := by
  show (if Int.fdiv (now - due) minutesPerDay > 0
      then Int.fdiv (now - due) minutesPerDay * 10 else 0) = _
  by_cases hld : 0 < Int.fdiv (now - due) minutesPerDay
  · rw [if_pos hld, max_eq_right hld.le]
  · rw [if_neg hld, max_eq_left (le_of_not_lt hld), zero_mul]

theorem computeFineW_ontime {due now : Int} (h : now ≤ due) :
    computeFineW (some (DateVal.valid due)) now = 0 := by
  show (if Int.fdiv (now - due) minutesPerDay > 0
      then Int.fdiv (now - due) minutesPerDay * 10 else 0) = 0
  simp only [minutesPerDay]
  rw [Int.fdiv_eq_ediv _ (by norm_num)]
  rw [if_neg (by omega)]

theorem computeFineW_three_days_late (t : Int) :
    computeFineW (some (DateVal.valid (t + 7 * minutesPerDay)))
      (t + 10 * minutesPerDay) = 30 := by
  show (if Int.fdiv (t + 10 * minutesPerDay - (t + 7 * minutesPerDay)) minutesPerDay > 0
      then Int.fdiv (t + 10 * minutesPerDay - (t + 7 * minutesPerDay)) minutesPerDay * 10
      else 0) = 30
  have h1 : t + 10 * minutesPerDay - (t + 7 * minutesPerDay) = 4320 := by
    simp only [minutesPerDay]
    ring
  rw [h1]
  simp only [minutesPerDay]
  decide

/-- C4: a successful return is fined `max(0, daysLate) * 10` where
`daysLate` is the floor of `(now − due)` in whole days; a return at or
before the due date is fined `0`; a missing or malformed due date yields
fine `0` without failing the return; and a return exactly 3 days after the
due date set by a borrow (7 days after the borrow time `t`) is fined
`30`. -/
theorem C4_fine_policy :
    (∀ (lib : LibraryW) (now : Int) (mkey bkey : String) (bt bn : Bool)
        (lib' : LibraryW) (f : Int) (kb : String) (b : BookW) (due : Int),
        return_bookW lib now mkey bkey bt bn = Except.ok (lib', f) →
        resolveBookW lib bkey bt = some (kb, b) →
        b.due_date = some (DateVal.valid due) →
        f = max 0 (Int.fdiv (now - due) minutesPerDay) * 10) ∧
    (∀ (lib : LibraryW) (now : Int) (mkey bkey : String) (bt bn : Bool)
        (lib' : LibraryW) (f : Int) (kb : String) (b : BookW) (due : Int),
        return_bookW lib now mkey bkey bt bn = Except.ok (lib', f) →
        resolveBookW lib bkey bt = some (kb, b) →
        b.due_date = some (DateVal.valid due) →
        now ≤ due → f = 0) ∧
    (∀ (lib : LibraryW) (now : Int) (mkey bkey : String) (bt bn : Bool)
        (lib' : LibraryW) (f : Int) (kb : String) (b : BookW),
        return_bookW lib now mkey bkey bt bn = Except.ok (lib', f) →
        resolveBookW lib bkey bt = some (kb, b) →
        (b.due_date = none ∨ b.due_date = some DateVal.malformed) →
        f = 0) ∧
    (∀ (lib lib₁ : LibraryW) (t : Int) (mid bid : String),
        borrow_bookW lib t mid bid false false = Except.ok lib₁ →
        ∃ lib₂, return_bookW lib₁ (t + 10 * minutesPerDay) mid bid false false =
          Except.ok (lib₂, 30)) := by
  have hkey : ∀ (lib : LibraryW) (now : Int) (mkey bkey : String) (bt bn : Bool)
      (lib' : LibraryW) (f : Int) (kb : String) (b : BookW),
      return_bookW lib now mkey bkey bt bn = Except.ok (lib', f) →
      resolveBookW lib bkey bt = some (kb, b) →
      f = computeFineW b.due_date now := by
    intro lib now mkey bkey bt bn lib' f kb b hret hb
    obtain ⟨km₂, m₂, kb₂, b₂, _, hb₂, _, _, hfine₂, _, _, _⟩ :=
      return_bookW_ok_inv hret
    rw [hb] at hb₂
    injection Option.some.inj hb₂ with h3 h4
    subst h3
    subst h4
    exact hfine₂
  refine ⟨?_, ?_, ?_, ?_⟩
  · intro lib now mkey bkey bt bn lib' f kb b due hret hb hdue
    rw [hkey lib now mkey bkey bt bn lib' f kb b hret hb, hdue,
      computeFineW_valid]
  · intro lib now mkey bkey bt bn lib' f kb b due hret hb hdue hle
    rw [hkey lib now mkey bkey bt bn lib' f kb b hret hb, hdue,
      computeFineW_ontime hle]
  · intro lib now mkey bkey bt bn lib' f kb b hret hb hdue
    rw [hkey lib now mkey bkey bt bn lib' f kb b hret hb]
    rcases hdue with hdue | hdue <;> rw [hdue] <;> rfl
  · intro lib lib₁ t mid bid h
    obtain ⟨km, m, kb, b, lib₂, _, _, _, _, _, hret, _, _, _⟩ :=
      @borrow_return_chain lib lib₁ t (t + 10 * minutesPerDay) mid bid h
    rw [computeFineW_three_days_late] at hret
    exact ⟨lib₂, hret⟩

theorem C4_fine_policy_witness :
    (∃ lib₂, return_bookW (runW exOpsW1) (2 + 10 * minutesPerDay)
      "M1" "B1" false false = Except.ok (lib₂, 30)) ∧
    (∃ f, return_bookW (runW exOpsW1) 100 "M1" "B1" false false =
      Except.ok ((stepW (runW exOpsW1) 100 (OpW.ret "M1" "B1" false false)), f) ∧
      f = 0) := by
  constructor
  · exact C4_fine_policy.2.2.2 (runW exOpsW) (runW exOpsW1) 2 "M1" "B1"
      (by decide)
  · refine ⟨0, by decide, ?_⟩
    exact (C4_fine_policy.2.1 (runW exOpsW1) 100 "M1" "B1" false false
      (stepW (runW exOpsW1) 100 (OpW.ret "M1" "B1" false false)) 0
      "B1" ⟨"B1", "Dune", "Herbert", true, some "M1", some (.valid 10082)⟩ 10082
      (by decide) (by decide) (by decide) (by decide)).symm.trans rfl

/-- C5: in any state reached by a run of public operations, a successful
(id-addressed) borrow followed by a return of the same book by the same
member succeeds and restores the catalog and the roster — in particular
the book's availability and the member's borrowed-set — to their
pre-borrow values; the only other change is the appended borrow/return
entry pair in the history. -/
theorem C5_borrow_return_roundtrip (ops : List (Int × OpW)) (t t' : Int)
    (mid bid : String) (lib₁ : LibraryW)
    (h : borrow_bookW (runW ops) t mid bid false false = Except.ok lib₁) :
    ∃ lib₂ fine, return_bookW lib₁ t' mid bid false false =
        Except.ok (lib₂, fine) ∧
      lib₂.books = (runW ops).books ∧ lib₂.members = (runW ops).members ∧
      lib₂.history = (runW ops).history ++
        [HistEntry.borrowE t bid mid (DateVal.valid (t + 7 * minutesPerDay)),
         HistEntry.retE t' bid mid fine] := by
  obtain ⟨⟨hndB, hBooks⟩, hndM, hMembers⟩ := winv_runW ops
  obtain ⟨km, m, kb, b, lib₂, hm, hb, hkm, hkb, hbb, hret, hbo, hme, hhi⟩ :=
    @borrow_return_chain (runW ops) lib₁ t t' mid bid h
  rw [hkm] at hm
  rw [hkb] at hb
  have hmemM : (mid, m) ∈ (runW ops).members := getEntry_mem hm
  have hmemB : (bid, b) ∈ (runW ops).books := getEntry_mem hb
  have hmid : mid = m.member_id := (hMembers _ hmemM).1
  have hbid : bid = b.book_id := (hBooks _ hmemB).1
  obtain ⟨hbor, hdue⟩ := (hBooks _ hmemB).2 hbb
  have hnotin : b.book_id ∉ m.borrowed_book_ids := by
    intro hmem
    obtain ⟨c, hgc, hcb, _⟩ := (hMembers _ hmemM).2.2 _ hmem
    rw [← hbid, hb] at hgc
    have hcb' : c = b := by simpa using hgc.symm
    rw [hcb', hbb] at hcb
    exact Bool.false_ne_true hcb
  have hclear : clearLoan (markBorrowed b m.member_id (t + 7 * minutesPerDay)) = b := by
    cases b
    simp_all [clearLoan, markBorrowed]
  have hrem : removeBorrowed (addBorrowed m b.book_id) b.book_id = m := by
    have herase : (m.borrowed_book_ids ++ [b.book_id]).erase b.book_id =
        m.borrowed_book_ids := by
      rw [List.erase_append_right _ hnotin]
      simp
    cases m
    simp_all [removeBorrowed, addBorrowed]
  refine ⟨lib₂, _, hret, ?_, ?_, ?_⟩
  · rw [hbo, hclear, setKey_self_of_getEntry hb]
  · rw [hme, hrem, setKey_self_of_getEntry hm]
  · rw [hhi, hbid, hmid]

theorem C5_borrow_return_roundtrip_witness :
    ∃ lib₂ fine, return_bookW (runW exOpsW1) 5 "M1" "B1" false false =
        Except.ok (lib₂, fine) ∧
      lib₂.books = (runW exOpsW).books ∧ lib₂.members = (runW exOpsW).members ∧
      lib₂.history = (runW exOpsW).history ++
        [HistEntry.borrowE 2 "B1" "M1" (DateVal.valid (2 + 7 * minutesPerDay)),
         HistEntry.retE 5 "B1" "M1" fine] :=
  C5_borrow_return_roundtrip exOpsW 2 5 "M1" "B1" (runW exOpsW1) (by decide)
